import Mathlib

/-!
Verification development for the SPARCS audit/compliance report table
extractor.  The definitions below are a shallow embedding of the core
table-normalisation pipeline of `src/compliance_table_extractor.py`
(`process_pdf` and `extract_compliance_data`), with pandas dataframes
modelled as a list of column names plus row-major lists of cells, and
missing values (NaN) modelled by an explicit `Val.na` constructor.
-/

namespace Sparcs

/-- A cell value of a processed table: `na` models pandas NaN (the
missing-value marker), `str` a raw text cell, `num` a numeric cell
produced by the percentage coercion (modelled as a rational; the
Python code uses a float, whose decimal literals we track exactly). -/
inductive Val where
  | na : Val
  | str : String → Val
  | num : ℚ → Val
deriving DecidableEq, Repr

/-- A raw cell grid as produced by the external table-detection
capability (`camelot`): rows of text cells.  The first row is
provisionally the header. -/
abbrev Grid := List (List String)

/-- A processed table (a pandas DataFrame after `process_pdf`'s
per-table transformation): column labels plus row-major cell values. -/
structure NTable where
  cols : List String
  rows : List (List Val)
deriving DecidableEq, Repr

/-- Python whitespace characters recognised by the `^\s*$` regex used in
`df.replace(r"^\s*$", np.nan, regex=True)` (ASCII subset). -/
def pyIsSpace (c : Char) : Bool :=
  c == ' ' || c == '\t' || c == '\n' || c == '\r' || c == '\x0b' || c == '\x0c'

/-- ASCII upper-casing of a string, modelling Python `str.upper()` on the
ASCII labels appearing in these documents. -/
def pyUpper (s : String) : String :=
  (s.toList.map Char.toUpper).asString

/-- Header-label canonicalisation of `process_pdf` line 51:
`str(c).replace("*", "").replace("\n", "_").replace(" ", "_").upper()`.
Since every replacement target is a single character and the
replacement `"_"` is never rewritten again, this is a per-character
filter and map. -/
def cleanLabel (s : String) : String :=
  ((s.toList.filter (fun c => !(c == '*'))).map
    (fun c => if c == '\n' || c == ' ' then '_' else c.toUpper)).asString

/-- The canonical column labels of a grid: the first row passed through
`cleanLabel` (lines 48-53 of `process_pdf`; note that assigning
`df.columns = df.iloc[0]` does not remove the first row from the data). -/
def stageCols (g : Grid) : List String :=
  (g.headD []).map cleanLabel

/-- The designated key column. -/
def keyCol : String := "FILE_TYPE"

/-- The configured percentage column. -/
def pctCol : String := "PCT_OF_PREVYRAVG_SUBMTD_"

/-- The mandatory final-filter column. -/
def dmCol : String := "DISCHARGE_MONTH"

/-- The key-column cell of a raw row (rows of a real dataframe all have
the header's length; `getD` totalises the access). -/
def keyCellStr (kIdx : Nat) (r : List String) : String :=
  r.getD kIdx ""

/-- `listStartsWith pat cs` is true when `pat` is an initial segment of `cs`. -/
def listStartsWith : List Char → List Char → Bool
  | [], _ => true
  | _ :: _, [] => false
  | p :: ps, c :: cs => p == c && listStartsWith ps cs

/-- `hasSubL pat cs` is true when `pat` occurs contiguously inside `cs`. -/
def hasSubL (pat : List Char) : List Char → Bool
  | [] => listStartsWith pat []
  | c :: cs => listStartsWith pat (c :: cs) || hasSubL pat cs

/-- Case-insensitive substring test, modelling
`Series.str.contains(pat, case=False)` for a pattern without regex
metacharacters. -/
def hasSubstrCI (pat s : String) : Bool :=
  hasSubL (pat.toList.map Char.toLower) (s.toList.map Char.toLower)

/-- The row filters of `process_pdf` lines 61-64: drop rows whose key
cell equals the raw label `"File\nType"`, upper-cases to `"FILE_TYPE"`,
or contains `"Total Records Submitted"` case-insensitively. -/
def filteredRows (kIdx : Nat) (g : Grid) : Grid :=
  ((g.filter (fun r => !(keyCellStr kIdx r == "File\nType"))).filter
      (fun r => !(pyUpper (keyCellStr kIdx r) == "FILE_TYPE"))).filter
    (fun r => !(hasSubstrCI "Total Records Submitted" (keyCellStr kIdx r)))

/-- `df.replace(r"^\s*$", np.nan, regex=True)` on one cell: an empty or
all-whitespace cell becomes the missing marker. -/
def toCell (s : String) : Val :=
  if s.toList.all pyIsSpace then Val.na else Val.str s

/-- The surviving data rows of a grid just before the forward fill:
filtered (lines 61-64) and blank-replaced (line 65). -/
def preFfillRows (kIdx : Nat) (g : Grid) : List (List Val) :=
  (filteredRows kIdx g).map (fun r => r.map toCell)

/-- Forward fill of column `kIdx` with the last non-missing value seen
(`Series.ffill()`, line 68): `carry` is that value, initially missing. -/
def ffillAux (kIdx : Nat) (carry : Val) : List (List Val) → List (List Val)
  | [] => []
  | r :: rs =>
    if r.getD kIdx Val.na = Val.na then r.set kIdx carry :: ffillAux kIdx carry rs
    else r :: ffillAux kIdx (r.getD kIdx Val.na) rs

/-- Forward fill of column `kIdx` (initial carry is the missing marker,
so leading missing cells stay missing). -/
def ffillCol (kIdx : Nat) (rows : List (List Val)) : List (List Val) :=
  ffillAux kIdx Val.na rows

/-- The Row Reconciler stage of `process_pdf` (lines 60-68): row
filters, blank-to-missing replacement, and key-column forward fill. -/
def reconcileRows (kIdx : Nat) (g : Grid) : List (List Val) :=
  ffillCol kIdx (preFfillRows kIdx g)

/-- Strip all trailing `'%'` characters, modelling Python
`str.rstrip("%")`. -/
def pyRstripPct (s : String) : String :=
  ((s.toList.reverse.dropWhile (fun c => c == '%')).reverse).asString

/-- Numeric value of a digit string. -/
def digitsVal (cs : List Char) : Nat :=
  cs.foldl (fun a c => a * 10 + (c.toNat - 48)) 0

/-- Consume an optional leading sign; returns (negative?, rest). -/
def parseSign : List Char → Bool × List Char
  | '-' :: r => (true, r)
  | '+' :: r => (false, r)
  | r => (false, r)

/-- Parse an unsigned digit string. -/
def parseUnsignedDigits (cs : List Char) : Option Nat :=
  if cs ≠ [] ∧ cs.all Char.isDigit then some (digitsVal cs) else none

/-- Parse the mantissa of a Python float literal into its integer-part
and fraction-part digits: the accepted shapes are `d+`, `d+.d*` and
`d*.d+` (at least one digit overall, at most one dot). -/
def parseMantissa (cs : List Char) : Option (List Char × List Char) :=
  match cs.splitOn '.' with
  | [ip] =>
    if ip ≠ [] ∧ ip.all Char.isDigit then some (ip, []) else none
  | [ip, fp] =>
    if (ip ++ fp) ≠ [] ∧ ip.all Char.isDigit ∧ fp.all Char.isDigit then
      some (ip, fp)
    else none
  | _ => none

/-- Syntactic decomposition of a Python float literal, after stripping
surrounding whitespace: the literal's sign, integer-part digits,
fraction-part digits, and the optional exponent's sign and digits.
The special spellings `nan`/`inf`/`infinity` and digit-group
underscores are not representable in `ℚ` and are modelled as parse
failures; no document cell and no claim exercises them. -/
def parseFloatSyntax (s : String) :
    Option (Bool × List Char × List Char × Option (Bool × List Char)) :=
  let cs := ((s.toList.dropWhile pyIsSpace).reverse.dropWhile pyIsSpace).reverse
  let sr := parseSign cs
  let me := sr.2.span (fun c => !(c == 'e' || c == 'E'))
  match parseMantissa me.1, me.2 with
  | some m, [] => some (sr.1, m.1, m.2, none)
  | some m, _ :: ecs =>
    let esr := parseSign ecs
    match parseUnsignedDigits esr.2 with
    | some _ => some (sr.1, m.1, m.2, some (esr.1, esr.2))
    | none => none
  | none, _ => none

/-- The rational value of a decomposed float literal. -/
def floatValOf : Bool × List Char × List Char × Option (Bool × List Char) → ℚ
  | (neg, ip, fp, ex) =>
    let m : ℚ := (digitsVal ip : ℚ) + (digitsVal fp : ℚ) / (10 : ℚ) ^ fp.length
    let v : ℚ :=
      match ex with
      | none => m
      | some (eneg, ds) =>
        m * (10 : ℚ) ^ (if eneg then -(digitsVal ds : Int) else (digitsVal ds : Int))
    if neg then -v else v

/-- Parse a decimal numeric literal the way Python `float()` (and hence
`Series.astype("float")`) does: surrounding whitespace, optional sign,
mantissa, optional `e`/`E` exponent. -/
def pyParseFloat (s : String) : Option ℚ :=
  (parseFloatSyntax s).map floatValOf

/-- The percentage coercion of one cell (`process_pdf` lines 72-74):
`astype(str)` renders NaN as `"nan"`, which `float()` accepts back as
NaN, so a missing cell stays missing; a text cell has its trailing `%`
stripped and is parsed as a float then divided by 100; a parse failure
raises `ValueError` for the whole column, modelled as `none`. -/
def pctCell : Val → Option Val
  | Val.na => some Val.na
  | Val.str s => (pyParseFloat (pyRstripPct s)).map (fun q => Val.num (q / 100))
  | Val.num q => some (Val.num (q / 100))

/-- The percentage coercion applied down the column at index `pIdx`:
`none` when any cell fails to parse (the `ValueError` of
`astype("float")` aborts the whole table). -/
def convertPct (pIdx : Nat) : List (List Val) → Option (List (List Val))
  | [] => some []
  | r :: rs =>
    match pctCell (r.getD pIdx Val.na), convertPct pIdx rs with
    | some v, some rest => some (r.set pIdx v :: rest)
    | _, _ => none

/-- Column assignment `df[name] = v` with a scalar: overwrite every
column labelled `name` when present, otherwise append a new column. -/
def setColAll (t : NTable) (name : String) (v : Val) : NTable :=
  if name ∈ t.cols then
    ⟨t.cols,
      t.rows.map (fun r =>
        r.enum.map (fun ic => if t.cols.getD ic.1 "" = name then v else ic.2))⟩
  else ⟨t.cols ++ [name], t.rows.map (fun r => r ++ [v])⟩

/-- The per-table pipeline of `process_pdf` (lines 44-85) on one grid.
`none` models both the `continue` for a grid without a `FILE_TYPE`
column and the per-table `except` clause that swallows any exception
(empty grid at `df.iloc[0]`; duplicated `FILE_TYPE` or percentage
column, whose dataframe-valued selection makes the subsequent
Series-only operations raise; a `ValueError` from the percentage
coercion).  On success the processed table carries the converted or
freshly added percentage column plus the provenance columns `PFI` and
`AUDIT_YEAR`. -/
def processTable (pfi year : String) (g : Grid) : Option NTable :=
  match g with
  | [] => none
  | _ :: _ =>
    let cols := stageCols g
    if keyCol ∈ cols then
      if 2 ≤ cols.count keyCol then none
      else
        let kIdx := cols.indexOf keyCol
        let rows := reconcileRows kIdx g
        if pctCol ∈ cols then
          if 2 ≤ cols.count pctCol then none
          else
            match convertPct (cols.indexOf pctCol) rows with
            | none => none
            | some rows2 =>
              some (setColAll (setColAll ⟨cols, rows2⟩ "PFI" (Val.str pfi))
                "AUDIT_YEAR" (Val.str year))
        else
          some (setColAll (setColAll (setColAll ⟨cols, rows⟩ pctCol Val.na)
            "PFI" (Val.str pfi)) "AUDIT_YEAR" (Val.str year))
    else none

/-- The per-file loop of `process_pdf` (lines 44-87): each grid is
processed independently; a grid whose processing fails is skipped and
the loop continues with the next grid. -/
def processGrids (pfi year : String) : List Grid → List NTable
  | [] => []
  | g :: gs =>
    match processTable pfi year g with
    | some t => t :: processGrids pfi year gs
    | none => processGrids pfi year gs

/-- Split a character list at every occurrence of `sep`, keeping empty
segments, as Python `str.split(sep)` does for a one-character
separator. -/
def splitCharList (sep : Char) : List Char → List (List Char)
  | [] => [[]]
  | c :: cs =>
    match splitCharList sep cs with
    | [] => [[]]
    | acc :: rest => if c == sep then [] :: acc :: rest else (c :: acc) :: rest

/-- Python `s.split(sep)` for a one-character separator (also the
behaviour of `str.split("_")` in `process_pdf` line 29). -/
def pySplit (sep : Char) (s : String) : List String :=
  (splitCharList sep s.toList).map List.asString

/-- `tok.startswith('Y')`. -/
def startsWithY (tok : String) : Bool :=
  match tok.toList with
  | 'Y' :: _ => true
  | _ => false

/-- Provenance parsing of `process_pdf` lines 29-38, on the base name
(stem) of the document: the facility identifier (PFI) is the last
underscore-delimited token; the year is the leading token minus its
first character when that token starts with `'Y'` and has more than one
character, otherwise the sentinel `"UnknownYear"`. -/
def parseProvenance (stem : String) : String × String :=
  let parts := pySplit '_' stem
  let tok := parts.headD ""
  (parts.getLastD "",
    if startsWithY tok ∧ 1 < tok.toList.length
    then (tok.toList.drop 1).asString else "UnknownYear")

/-- The final path component of a path string (`pathlib.Path(p).name`
for the plain relative paths used here). -/
def pyName (p : String) : String :=
  (pySplit '/' p).getLastD ""

/-- Index of the last `'.'` in a character list, if any. -/
def lastDotIdx (cs : List Char) : Option Nat :=
  (cs.enum.filter (fun ic => ic.2 == '.')).getLast?.map (fun ic => ic.1)

/-- `pathlib.Path(p).stem`: the final path component with its suffix
removed, where a suffix requires a dot strictly inside the name. -/
def pyStem (p : String) : String :=
  let n := pyName p
  let cs := n.toList
  match lastDotIdx cs with
  | some i => if 0 < i ∧ i < cs.length - 1 then (cs.take i).asString else n
  | none => n

/-- `process_pdf` as seen by its caller: the filename yields the
provenance pair, and the `camelot.read_pdf` call either fails
(`none`: missing file or extraction failure, lines 89-94, returning the
empty list) or yields the grids fed to the per-table loop. -/
def processPdf (filename : String) (camelotResult : Option (List Grid)) :
    List NTable :=
  match camelotResult with
  | none => []
  | some gs =>
    let pv := parseProvenance (pyStem filename)
    processGrids pv.1 pv.2 gs

/-- The fatal error kinds of `extract_compliance_data`: no PDF inputs at
all (lines 104-107), or no tables extracted from any PDF (lines
137-140, the `NoDataProduced` condition of the spec). -/
inductive AggErr where
  | noPdfs : AggErr
  | noTables : AggErr
deriving DecidableEq, Repr

/-- Insert a column label if not already present (first-seen order). -/
def insertCol (acc : List String) (c : String) : List String :=
  if c ∈ acc then acc else acc ++ [c]

/-- The union schema of `pd.concat`: all column labels in first-seen
order. -/
def unionCols (ts : List NTable) : List String :=
  ts.foldl (fun acc t => t.cols.foldl insertCol acc) []

/-- `pd.concat(ts, ignore_index=True)` for tables whose column labels
are duplicate-free (the case reachable from well-formed grids; pandas
raises on outer-join reindexing over duplicated labels): each row is
reindexed onto the union schema, absent columns filled with the
missing marker. -/
def pdConcat (ts : List NTable) : NTable :=
  let uc := unionCols ts
  ⟨uc,
    (ts.map (fun t =>
      t.rows.map (fun r =>
        uc.map (fun c =>
          if c ∈ t.cols then r.getD (t.cols.indexOf c) Val.na else Val.na)))).flatten⟩

/-- The final completeness filter of `extract_compliance_data` (lines
147-151): when a `DISCHARGE_MONTH` column exists, keep only the rows
where it is not missing; otherwise leave the table unchanged. -/
def finalFilter (t : NTable) : NTable :=
  if dmCol ∈ t.cols then
    ⟨t.cols, t.rows.filter (fun r => !(r.getD (t.cols.indexOf dmCol) Val.na == Val.na))⟩
  else t

/-- All tables extracted across the run: the concatenation of each
file's `process_pdf` output (lines 121-129; extending with an empty
per-file list and not extending coincide). -/
def allTablesOf (pdfs : List (String × Option (List Grid))) : List NTable :=
  (pdfs.map (fun pr => processPdf pr.1 pr.2)).flatten

/-- `extract_compliance_data` (lines 96-161) over its inputs, modelled
as the list of discovered PDF files paired with the outcome of the
external extraction capability: fail when there are no PDFs; fail with
the `NoDataProduced` condition when no tables at all were extracted;
otherwise concatenate, apply the final filter, and emit the dataset
(the CSV write is the output boundary). -/
def extractCompliance (pdfs : List (String × Option (List Grid))) :
    Except AggErr NTable :=
  if pdfs.isEmpty then Except.error AggErr.noPdfs
  else if allTablesOf pdfs = [] then Except.error AggErr.noTables
  else Except.ok (finalFilter (pdConcat (allTablesOf pdfs)))

/-- Row count of a run's outcome: `none` when the run failed. -/
def resultRows : Except AggErr NTable → Option Nat
  | Except.ok t => some t.rows.length
  | Except.error _ => none

/-- Serialisation of one CSV field at the output boundary (the missing
marker becomes an empty field; numeric rendering uses the canonical
rational form). -/
def csvField : Val → String
  | Val.na => ""
  | Val.str s => s
  | Val.num q => toString q

/-- One CSV line. -/
def csvLine (fs : List String) : String :=
  String.intercalate "," fs

/-- CSV serialisation of a table: header line then one line per row. -/
def csvOf (t : NTable) : String :=
  String.intercalate "\n" (csvLine t.cols :: t.rows.map (fun r => csvLine (r.map csvField)))

end Sparcs

namespace Sparcs

/-! ### Generic helper lemmas about the embedding -/

/-- A character list is recovered from the string it builds. -/
theorem asString_toList (s : String) : s.toList.asString = s := by
  cases s
  rfl

/-- A built string reads back its character list. -/
theorem toList_asString (cs : List Char) : cs.asString.toList = cs := rfl

/-- String concatenation concatenates the character lists. -/
theorem toList_append (s t : String) : (s ++ t).toList = s.toList ++ t.toList := by
  cases s
  cases t
  rfl

/-- An empty character list comes only from the empty string. -/
theorem toList_eq_nil {s : String} (h : s.toList = []) : s = "" := by
  cases s with
  | mk data =>
    simp only [String.toList] at h
    simp [h]

/-- Skipping lemma for the per-file loop: a grid whose processing fails
contributes nothing and does not disturb the grids around it. -/
theorem processGrids_skip (p y : String) (g : Grid) (h : processTable p y g = none)
    (gs1 gs2 : List Grid) :
    processGrids p y (gs1 ++ g :: gs2) = processGrids p y (gs1 ++ gs2) := by
  induction gs1 with
  | nil => simp [processGrids, h]
  | cons g' gs1 ih =>
    simp only [List.cons_append, processGrids, List.append_eq]
    rw [ih]

/-- Element placed right after a list is read back by `getD` at the
list's length. -/
theorem getD_append_cons (l : List Val) (v : Val) (l' : List Val) :
    (l ++ v :: l').getD l.length Val.na = v := by
  induction l with
  | nil => rfl
  | cons a t ih => simpa using ih

/-- Accumulated-membership monotonicity of `insertCol` folds. -/
theorem mem_foldl_insertCol_of_mem_acc {c : String} :
    ∀ (l acc : List String), c ∈ acc → c ∈ l.foldl insertCol acc
  | [], acc, h => h
  | b :: bs, acc, h => by
    apply mem_foldl_insertCol_of_mem_acc bs
    by_cases hb : b ∈ acc <;> simp [insertCol, hb, h]

/-- A listed column ends up in the `insertCol` fold. -/
theorem mem_foldl_insertCol_of_mem {c : String} :
    ∀ (l acc : List String), c ∈ l → c ∈ l.foldl insertCol acc
  | b :: bs, acc, h => by
    rw [List.foldl_cons]
    rcases List.mem_cons.mp h with rfl | h
    · apply mem_foldl_insertCol_of_mem_acc
      by_cases hb : c ∈ acc <;> simp [insertCol, hb]
    · exact mem_foldl_insertCol_of_mem bs _ h

/-- Accumulated membership survives the outer fold of `unionCols`. -/
theorem mem_unionFold_of_mem_acc {c : String} :
    ∀ (ts : List NTable) (acc : List String), c ∈ acc →
      c ∈ ts.foldl (fun acc t => t.cols.foldl insertCol acc) acc
  | [], _, h => h
  | t :: ts, acc, h =>
    mem_unionFold_of_mem_acc ts _ (mem_foldl_insertCol_of_mem_acc _ _ h)

/-- Every column of every table appears in the union schema. -/
theorem mem_unionCols {c : String} {t : NTable} :
    ∀ {ts : List NTable}, t ∈ ts → c ∈ t.cols → c ∈ unionCols ts := by
  intro ts
  suffices h : ∀ acc, t ∈ ts → c ∈ t.cols →
      c ∈ ts.foldl (fun acc t => t.cols.foldl insertCol acc) acc from h []
  induction ts with
  | nil => intro _ h; cases h
  | cons t' ts ih =>
    intro acc hmem hc
    rcases List.mem_cons.mp hmem with rfl | hmem
    · exact mem_unionFold_of_mem_acc ts _ (mem_foldl_insertCol_of_mem _ _ hc)
    · exact ih _ hmem hc

end Sparcs

namespace Sparcs

/-! ### Claim C6: the percentage transform -/

/-- Claim C6: a percentage cell that parses numerically has its trailing
percent marker stripped, is parsed as a decimal number and divided by
100: generally, whenever the stripped text parses to `q`, the cell
becomes `q / 100`; in particular `"75.5%"` yields `0.755`, `"20%"`
yields `0.20`, and the over-100% value `"150%"` yields `1.5 > 1`
rather than being clamped. -/
theorem claim6_thm :
    (∀ s q, pyParseFloat (pyRstripPct s) = some q →
      pctCell (Val.str s) = some (Val.num (q / 100))) ∧
    pctCell (Val.str "75.5%") = some (Val.num ((151 : ℚ) / 200)) ∧
    pctCell (Val.str "20%") = some (Val.num ((1 : ℚ) / 5)) ∧
    pctCell (Val.str "150%") = some (Val.num ((3 : ℚ) / 2)) ∧
    (1 : ℚ) < 3 / 2 := by
  refine ⟨fun s q h => by simp [pctCell, h], ?_, ?_, ?_, by norm_num⟩
  · have hs : parseFloatSyntax (pyRstripPct "75.5%") = some (false, ['7', '5'], ['5'], none) := by
      decide
    have h1 : digitsVal ['7', '5'] = 75 := by decide
    have h2 : digitsVal ['5'] = 5 := by decide
    norm_num [pctCell, pyParseFloat, hs, floatValOf, h1, h2]
  · have hs : parseFloatSyntax (pyRstripPct "20%") = some (false, ['2', '0'], [], none) := by
      decide
    have h1 : digitsVal ['2', '0'] = 20 := by decide
    have h0 : digitsVal [] = 0 := rfl
    norm_num [pctCell, pyParseFloat, hs, floatValOf, h1, h0]
  · have hs : parseFloatSyntax (pyRstripPct "150%") = some (false, ['1', '5', '0'], [], none) := by
      decide
    have h1 : digitsVal ['1', '5', '0'] = 150 := by decide
    have h0 : digitsVal [] = 0 := rfl
    norm_num [pctCell, pyParseFloat, hs, floatValOf, h1, h0]

/-- Claim C6 witness: the general strip-parse-divide statement applied
at the concrete input `"130%"`. -/
theorem claim6_wit :
    pctCell (Val.str "130%") = some (Val.num ((130 : ℚ) / 100)) :=
  claim6_thm.1 "130%" 130 (by
    have hs : parseFloatSyntax (pyRstripPct "130%") = some (false, ['1', '3', '0'], [], none) := by
      decide
    have h1 : digitsVal ['1', '3', '0'] = 130 := by decide
    have h0 : digitsVal [] = 0 := rfl
    norm_num [pyParseFloat, hs, floatValOf, h1, h0])

/-! ### Claim C2: duplicated canonical header labels -/

/-- Claim C2 counterexample: the grid with canonical header
`["FILE_TYPE", "DATA", "DATA"]` has a duplicated canonical label, yet
the pipeline produces a table for it (with the duplicated columns kept)
instead of failing with a schema-conflict error. -/
theorem claim2_cex :
    (stageCols [["FILE_TYPE", "DATA", "DATA"], ["A", "1", "2"]]).count "DATA" = 2 ∧
    (processTable "P" "2022" [["FILE_TYPE", "DATA", "DATA"], ["A", "1", "2"]]).isSome
      = true := by
  constructor <;> decide

/-- Claim C2 (amended): the pipeline performs no general uniqueness
check on canonical header labels; only a duplication of the key column
`FILE_TYPE` itself makes the table disappear (the duplicate selection
raises inside the per-table `try`, which swallows it), and no
schema-conflict error kind exists. -/
theorem claim2_thm (p y : String) (g : Grid)
    (h : 2 ≤ (stageCols g).count keyCol) :
    processTable p y g = none := by
  cases g with
  | nil => rfl
  | cons hd tl =>
    by_cases hk : keyCol ∈ stageCols (hd :: tl)
    · simp [processTable, hk, h]
    · simp [processTable, hk]

/-- Claim C2 witness: a grid whose two header cells both canonicalise to
`FILE_TYPE` yields no table. -/
theorem claim2_wit :
    2 ≤ (stageCols [["File Type", "FILE_TYPE"], ["A", "B"]]).count keyCol ∧
    processTable "P" "2022" [["File Type", "FILE_TYPE"], ["A", "B"]] = none :=
  ⟨by decide, claim2_thm "P" "2022" _ (by decide)⟩

/-! ### Claim C9: determinism of the Aggregator -/

/-- Claim C9: the Aggregator is deterministic — applied twice to the
same inputs it produces the identical dataset and the identical
serialised output (the embedding of `extract_compliance_data` is a pure
function of its inputs; union schema, row order and serialisation
contain no source of nondeterminism). -/
theorem claim9_thm (pdfs : List (String × Option (List Grid))) :
    extractCompliance pdfs = extractCompliance pdfs ∧
    (extractCompliance pdfs).map csvOf = (extractCompliance pdfs).map csvOf :=
  ⟨rfl, rfl⟩

/-! ### Claim C10: process_pdf never propagates failures -/

/-- Claim C10: `process_pdf` always returns a list: a missing file or a
failing extraction capability yields the empty list, and a grid whose
per-table processing fails is simply skipped, leaving the processing of
the other grids of the same file unchanged. -/
theorem claim10_thm (name p y : String) (g : Grid) (gs1 gs2 : List Grid)
    (h : processTable p y g = none) :
    processPdf name none = [] ∧
    processGrids p y (gs1 ++ g :: gs2) = processGrids p y (gs1 ++ gs2) :=
  ⟨rfl, processGrids_skip p y g h gs1 gs2⟩

/-- Claim C10 witness: a grid with no `FILE_TYPE` column fails, is
skipped, and the surrounding grids are processed as if it were absent. -/
theorem claim10_wit :
    processPdf "pdfs/Y2022_AUDIT_PFI123.pdf" none = [] ∧
    processGrids "PFI123" "2022" ([] ++ [["JUNK"], ["x"]] :: [[["FILE_TYPE"], ["A"]]]) =
      processGrids "PFI123" "2022" ([] ++ [[["FILE_TYPE"], ["A"]]]) :=
  claim10_thm "pdfs/Y2022_AUDIT_PFI123.pdf" "PFI123" "2022" [["JUNK"], ["x"]]
    [] [[["FILE_TYPE"], ["A"]]] (by decide)

end Sparcs

namespace Sparcs

/-! ### Claim C8: provenance parsing -/

/-- Modelled from the spec (section 6, document metadata boundary), for
comparison against the code's `parseProvenance`: the period identifier
is the digits of the leading underscore-delimited token when that token
starts with the one-letter year-prefix marker `Y`, else an explicit
"unknown" sentinel. -/
def specPeriodOf (stem : String) : String :=
  let tok := (pySplit '_' stem).headD ""
  if startsWithY tok then (tok.toList.filter Char.isDigit).asString else "unknown"

/-- Claim C8 counterexample: on the base name `Y20A2_P`, whose leading
token starts with the marker but is not all digits after it, the code
returns the verbatim remainder `"20A2"`, not the token's digits
`"202"` that the claim describes. -/
theorem claim8_cex :
    (parseProvenance "Y20A2_P").2 = "20A2" ∧
    specPeriodOf "Y20A2_P" = "202" ∧ ("20A2" : String) ≠ "202" :=
  ⟨by decide, by decide, by decide⟩

/-- Claim C8 (amended): for every base name, the facility identifier
is the last underscore-delimited token; when the leading token is the
`Y` marker followed by a nonempty remainder, the period identifier is
that remainder verbatim — and it equals the token's digits exactly
when the remainder consists of digits (both directions); in every
other case (no `Y` marker, or the lone one-character token `"Y"`) the
explicit sentinel `"UnknownYear"` is returned, never a fabricated
year. -/
theorem claim8_thm (stem : String) :
    (parseProvenance stem).1 = (pySplit '_' stem).getLastD "" ∧
    (∀ ds, (pySplit '_' stem).headD "" = "Y" ++ ds → ds ≠ "" →
      (parseProvenance stem).2 = ds ∧
      (ds.toList.all Char.isDigit = true ↔ specPeriodOf stem = ds)) ∧
    (¬ (startsWithY ((pySplit '_' stem).headD "") = true ∧
        1 < ((pySplit '_' stem).headD "").toList.length) →
      (parseProvenance stem).2 = "UnknownYear") := by
  refine ⟨rfl, ?_, ?_⟩
  · intro ds h1 h2
    have htl : ("Y" ++ ds).toList = 'Y' :: ds.toList := by
      rw [toList_append]
      rfl
    have hne : ds.toList ≠ [] := fun hnil => h2 (toList_eq_nil hnil)
    have hsw : startsWithY ("Y" ++ ds) = true := by
      simp [startsWithY, htl]
    have hlen : 1 < ("Y" ++ ds).toList.length := by
      rw [htl]
      simpa using List.length_pos.mpr hne
    constructor
    · simp only [parseProvenance, h1]
      rw [if_pos ⟨hsw, hlen⟩, htl]
      simpa using asString_toList ds
    · have hspec : specPeriodOf stem = (ds.toList.filter Char.isDigit).asString := by
        simp only [specPeriodOf, h1, hsw, if_pos, htl, List.filter_cons]
        rw [show Char.isDigit 'Y' = false from rfl]
        simp
      constructor
      · intro hall
        rw [hspec, List.filter_eq_self.mpr fun a ha => List.all_eq_true.mp hall a ha]
        exact asString_toList ds
      · intro hsp
        rw [hspec] at hsp
        have hfil : ds.toList.filter Char.isDigit = ds.toList := by
          have hls := congrArg String.toList hsp
          rwa [toList_asString] at hls
        exact List.all_eq_true.mpr (List.filter_eq_self.mp hfil)
  · intro hcond
    simp only [parseProvenance]
    rw [if_neg hcond]

/-- Claim C8 witness: the convention-following base name
`Y2022_AUDIT_PFI123` yields facility `PFI123` and period `2022` with
the digits reading agreeing, while the unprefixed `2020_REPORT_PFIXYZ`
and the lone-marker `Y_P` both fall to the `"UnknownYear"` sentinel. -/
theorem claim8_wit :
    (parseProvenance "Y2022_AUDIT_PFI123").1 =
      (pySplit '_' "Y2022_AUDIT_PFI123").getLastD "" ∧
    (parseProvenance "Y2022_AUDIT_PFI123").2 = "2022" ∧
    specPeriodOf "Y2022_AUDIT_PFI123" = "2022" ∧
    (parseProvenance "2020_REPORT_PFIXYZ").2 = "UnknownYear" ∧
    (parseProvenance "Y_P").2 = "UnknownYear" := by
  have h1 := claim8_thm "Y2022_AUDIT_PFI123"
  have h2 := claim8_thm "2020_REPORT_PFIXYZ"
  have h3 := claim8_thm "Y_P"
  have hy := h1.2.1 "2022" (by decide) (by decide)
  exact ⟨h1.1, hy.1, hy.2.mp (by decide), h2.2.2 (by decide), h3.2.2 (by decide)⟩

/-! ### Claim C3: unparseable percentage cells -/

/-- A grid whose percentage column contains the unparseable cell
`"N/A"` in a surviving data row. -/
def gridNA : Grid :=
  [["File\nType", "PCT_OF_PREVYRAVG_SUBMTD_"], ["A", "N/A"], ["B", "50%"]]

/-- The same grid with the offending cell replaced by a parseable one. -/
def gridPctOK : Grid :=
  [["File\nType", "PCT_OF_PREVYRAVG_SUBMTD_"], ["A", "40%"], ["B", "50%"]]

/-- Claim C3 counterexample: the single unparseable percentage cell
`"N/A"` of `gridNA` causes the whole table to be dropped (`none`),
while the identical grid without that cell is processed — the failure
is not confined to the one cell as the claim states. -/
theorem claim3_cex :
    processTable "P" "2022" gridNA = none ∧
    (processTable "P" "2022" gridPctOK).isSome = true :=
  ⟨by decide, by decide⟩

/-- Claim C3 (amended): a percentage cell that fails numeric parsing
makes the column coercion raise, so the whole table is skipped — not
just the cell; the failure stays local (the per-table handler swallows
it, and sibling grids are processed as if the table were absent), and
a cell that is already the missing marker coerces to the missing
marker without error. -/
theorem claim3_thm (p y : String) (hd : List String) (tl : List (List String))
    (hk : keyCol ∈ stageCols (hd :: tl))
    (hk1 : ¬ 2 ≤ (stageCols (hd :: tl)).count keyCol)
    (hp : pctCol ∈ stageCols (hd :: tl))
    (hp1 : ¬ 2 ≤ (stageCols (hd :: tl)).count pctCol)
    (hfail : convertPct ((stageCols (hd :: tl)).indexOf pctCol)
      (reconcileRows ((stageCols (hd :: tl)).indexOf keyCol) (hd :: tl)) = none) :
    processTable p y (hd :: tl) = none ∧
    pctCell Val.na = some Val.na ∧
    ∀ gs1 gs2, processGrids p y (gs1 ++ (hd :: tl) :: gs2) =
      processGrids p y (gs1 ++ gs2) := by
  have hnone : processTable p y (hd :: tl) = none := by
    simp [processTable, hk, hk1, hp, hp1, hfail]
  exact ⟨hnone, rfl, fun gs1 gs2 => processGrids_skip p y _ hnone gs1 gs2⟩

/-- Claim C3 witness: the amended statement applied to `gridNA`, with
the sibling grid `gridPctOK` unaffected by the skip. -/
theorem claim3_wit :
    processTable "P" "2022" gridNA = none ∧
    pctCell Val.na = some Val.na ∧
    processGrids "P" "2022" ([gridPctOK] ++ gridNA :: []) =
      processGrids "P" "2022" ([gridPctOK] ++ []) := by
  have h := claim3_thm "P" "2022" ["File\nType", "PCT_OF_PREVYRAVG_SUBMTD_"]
    [["A", "N/A"], ["B", "50%"]]
    (by decide) (by decide) (by decide) (by decide) (by decide)
  exact ⟨h.1, h.2.1, h.2.2 [gridPctOK] []⟩

end Sparcs

namespace Sparcs

/-! ### Claim C5: zero-row tables -/

/-- The row count of a concatenated dataset is the sum of the input
tables' row counts (reindexing is row-per-row). -/
theorem pdConcat_rows_length (ts : List NTable) :
    (pdConcat ts).rows.length = (ts.map (fun t => t.rows.length)).sum := by
  simp [pdConcat, Function.comp_def]

/-- A grid consisting of a lone header row: its only row is removed by
the repeated-header filter, leaving zero data rows. -/
def gridHdrOnly : Grid := [["FILE_TYPE", "DATA"]]

/-- The table `process_pdf` produces for `gridHdrOnly`. -/
def tblHdrOnly : NTable :=
  ⟨["FILE_TYPE", "DATA", "PCT_OF_PREVYRAVG_SUBMTD_", "PFI", "AUDIT_YEAR"], []⟩

/-- Claim C5 counterexample: a table with zero data rows after
reconciliation is not rejected — it is produced and forwarded to the
aggregation stage (there is no empty-table check in the code). -/
theorem claim5_cex :
    processTable "P" "2022" gridHdrOnly = some tblHdrOnly ∧
    processGrids "P" "2022" [gridHdrOnly] = [tblHdrOnly] :=
  ⟨by decide, by decide⟩

/-- Claim C5 (amended): a table left with zero data rows is forwarded
to the Aggregator rather than dropped; it is harmless there — it
contributes no rows to the concatenated dataset — and sibling tables
are unaffected. -/
theorem claim5_thm (p y : String) (g : Grid) (t : NTable)
    (ht : processTable p y g = some t) (hrows : t.rows = []) :
    t ∈ processGrids p y [g] ∧
    ∀ ts1 ts2, (pdConcat (ts1 ++ t :: ts2)).rows.length =
      (pdConcat (ts1 ++ ts2)).rows.length := by
  constructor
  · simp [processGrids, ht]
  · intro ts1 ts2
    simp [pdConcat_rows_length, hrows]

/-- Claim C5 witness: the zero-row table of `gridHdrOnly` is forwarded
and adds nothing to a concatenation. -/
theorem claim5_wit :
    tblHdrOnly ∈ processGrids "P" "2022" [gridHdrOnly] ∧
    (pdConcat ([⟨["FILE_TYPE"], [[Val.str "A"]]⟩] ++ tblHdrOnly :: [])).rows.length =
      (pdConcat ([⟨["FILE_TYPE"], [[Val.str "A"]]⟩] ++ [])).rows.length := by
  have h := claim5_thm "P" "2022" gridHdrOnly tblHdrOnly (by decide) rfl
  exact ⟨h.1, h.2 [⟨["FILE_TYPE"], [[Val.str "A"]]⟩] []⟩

/-! ### Claim C1: the fatal no-data condition -/

/-- A run with one PDF whose one grid yields one table whose single
data row has a missing `DISCHARGE_MONTH`, so the final filter removes
every row. -/
def pdfsC1 : List (String × Option (List Grid)) :=
  [("pdfs/Y2022_A_PFI1.pdf", some [[["File\nType", "Discharge\nMonth"], ["A", ""]]])]

/-- Claim C1 counterexample: a run in which a validated table exists
but the final mandatory-field filter removes every row does not fail —
it succeeds with a zero-row dataset, contradicting the claim that a
zero final row count always raises the fatal error. -/
theorem claim1_cex :
    (allTablesOf pdfsC1).length = 1 ∧
    resultRows (extractCompliance pdfsC1) = some 0 :=
  ⟨by decide, by decide⟩

/-- Claim C1 (amended): the fatal no-data error is raised exactly when
zero tables were extracted across the whole run (in particular when
every document yields zero tables); when at least one table exists the
run succeeds — even if the final filter leaves zero rows. -/
theorem claim1_thm (pdfs : List (String × Option (List Grid))) (h : pdfs ≠ []) :
    (extractCompliance pdfs = Except.error AggErr.noTables ↔ allTablesOf pdfs = []) ∧
    ((∀ pr ∈ pdfs, processPdf pr.1 pr.2 = []) →
      extractCompliance pdfs = Except.error AggErr.noTables) ∧
    (allTablesOf pdfs ≠ [] →
      extractCompliance pdfs = Except.ok (finalFilter (pdConcat (allTablesOf pdfs)))) := by
  have hne : pdfs.isEmpty = false := by
    cases pdfs with
    | nil => exact absurd rfl h
    | cons a l => rfl
  have hiff : extractCompliance pdfs = Except.error AggErr.noTables ↔ allTablesOf pdfs = [] := by
    constructor
    · intro he
      by_contra hnt
      simp [extractCompliance, hne, hnt] at he
    · intro ht
      simp [extractCompliance, hne, ht]
  refine ⟨hiff, ?_, ?_⟩
  · intro hall
    apply hiff.mpr
    have : ∀ l ∈ pdfs.map (fun pr => processPdf pr.1 pr.2), l = [] := by
      intro l hl
      obtain ⟨pr, hpr, rfl⟩ := List.mem_map.mp hl
      exact hall pr hpr
    simpa [allTablesOf, List.flatten_eq_nil_iff] using this
  · intro ht
    simp [extractCompliance, hne, ht]

/-- Claim C1 witness: a run whose only document yields no grids at all
fails with the no-tables error. -/
theorem claim1_wit :
    extractCompliance [("pdfs/a.pdf", none)] = Except.error AggErr.noTables :=
  (claim1_thm [("pdfs/a.pdf", none)] (by decide)).1.mpr (by decide)

end Sparcs

namespace Sparcs

/-! ### Claim C4: the forward-fill invariant -/

/-- The forward-fill value of a sequence of cells starting from carry
`c`: the last non-missing value, or `c` when there is none.  This is
the "nearest preceding non-missing value" of the claim. -/
def fillVal (c : Val) (vs : List Val) : Val :=
  vs.foldl (fun a v => if v = Val.na then a else v) c

/-- One step of `fillVal`. -/
theorem fillVal_cons (c v : Val) (vs : List Val) :
    fillVal c (v :: vs) = fillVal (if v = Val.na then c else v) vs := rfl

/-- `fillVal` preserves non-missingness of the carry. -/
theorem fillVal_ne_na : ∀ (vs : List Val) (c : Val), c ≠ Val.na → fillVal c vs ≠ Val.na
  | [], _, h => h
  | v :: vs, c, h => by
    rw [fillVal_cons]
    by_cases hv : v = Val.na
    · simpa [hv] using fillVal_ne_na vs c h
    · simpa [hv] using fillVal_ne_na vs v hv

/-- Reading back a just-set element. -/
theorem getD_set_self : ∀ (l : List Val) (i : Nat), i < l.length →
    ∀ v, (l.set i v).getD i Val.na = v
  | [], i, h, _ => by simp at h
  | a :: t, 0, _, v => rfl
  | a :: t, i + 1, h, v => by
    simpa using getD_set_self t i (by simpa using h) v

/-- Forward fill preserves the number of rows. -/
theorem ffillAux_length (kIdx : Nat) :
    ∀ (rows : List (List Val)) (c : Val), (ffillAux kIdx c rows).length = rows.length
  | [], _ => rfl
  | r :: rs, c => by
    simp only [ffillAux]
    by_cases hv : r.getD kIdx Val.na = Val.na
    · rw [if_pos hv]
      simp [ffillAux_length kIdx rs]
    · rw [if_neg hv]
      simp [ffillAux_length kIdx rs]

/-- The value the forward fill writes at row `i` of column `kIdx` is
the `fillVal` of the first `i + 1` original cells of that column. -/
theorem ffillAux_getD (kIdx : Nat) :
    ∀ (rows : List (List Val)) (c : Val), (∀ r ∈ rows, kIdx < r.length) →
      ∀ i, i < rows.length →
        ((ffillAux kIdx c rows).getD i []).getD kIdx Val.na =
          fillVal c ((rows.take (i + 1)).map (fun r => r.getD kIdx Val.na)) := by
  intro rows
  induction rows with
  | nil => intro c _ i hi; simp at hi
  | cons r rs ih =>
    intro c hlen i hi
    by_cases hv : r.getD kIdx Val.na = Val.na
    · have hstep : ffillAux kIdx c (r :: rs) = r.set kIdx c :: ffillAux kIdx c rs := by
        simp only [ffillAux]
        rw [if_pos hv]
      cases i with
      | zero =>
        rw [hstep]
        simp only [List.getD_cons_zero, List.take_succ_cons, List.take_zero,
          List.map_cons, List.map_nil, fillVal_cons]
        rw [getD_set_self r kIdx (hlen r (List.mem_cons_self r rs)) c, if_pos hv]
        simp [fillVal]
      | succ n =>
        rw [hstep]
        simp only [List.getD_cons_succ, List.take_succ_cons, List.map_cons, fillVal_cons]
        rw [if_pos hv]
        exact ih c (fun r' hr' => hlen r' (List.mem_cons_of_mem r hr')) n (by simpa using hi)
    · have hstep : ffillAux kIdx c (r :: rs) =
          r :: ffillAux kIdx (r.getD kIdx Val.na) rs := by
        simp only [ffillAux]
        rw [if_neg hv]
      cases i with
      | zero =>
        rw [hstep]
        simp only [List.getD_cons_zero, List.take_succ_cons, List.take_zero,
          List.map_cons, List.map_nil, fillVal_cons]
        rw [if_neg hv]
        simp [fillVal]
      | succ n =>
        rw [hstep]
        simp only [List.getD_cons_succ, List.take_succ_cons, List.map_cons, fillVal_cons]
        rw [if_neg hv]
        exact ih (r.getD kIdx Val.na)
          (fun r' hr' => hlen r' (List.mem_cons_of_mem r hr')) n (by simpa using hi)

/-- Every row of a forward-filled block has a non-missing key cell,
provided the carry is non-missing or the first row's key cell is. -/
theorem ffillAux_key_ne_na (kIdx : Nat) :
    ∀ (rows : List (List Val)) (c : Val), (∀ r ∈ rows, kIdx < r.length) →
      (c ≠ Val.na ∨ ((rows.headD []).getD kIdx Val.na ≠ Val.na)) →
      ∀ r' ∈ ffillAux kIdx c rows, r'.getD kIdx Val.na ≠ Val.na := by
  intro rows
  induction rows with
  | nil => intro c _ _ r' h; simp [ffillAux] at h
  | cons r rs ih =>
    intro c hlen hstart r' hr'
    by_cases hv : r.getD kIdx Val.na = Val.na
    · have hc : c ≠ Val.na := by
        rcases hstart with h | h
        · exact h
        · exact absurd (by simpa using hv) (by simpa using h)
      have hstep : ffillAux kIdx c (r :: rs) = r.set kIdx c :: ffillAux kIdx c rs := by
        simp only [ffillAux]
        rw [if_pos hv]
      rw [hstep] at hr'
      rcases List.mem_cons.mp hr' with rfl | hmem
      · rw [getD_set_self r kIdx (hlen r (List.mem_cons_self r rs)) c]
        exact hc
      · exact ih c (fun a ha => hlen a (List.mem_cons_of_mem r ha)) (Or.inl hc) r' hmem
    · have hstep : ffillAux kIdx c (r :: rs) =
          r :: ffillAux kIdx (r.getD kIdx Val.na) rs := by
        simp only [ffillAux]
        rw [if_neg hv]
      rw [hstep] at hr'
      rcases List.mem_cons.mp hr' with rfl | hmem
      · exact hv
      · exact ih (r.getD kIdx Val.na) (fun a ha => hlen a (List.mem_cons_of_mem r ha))
          (Or.inl hv) r' hmem

/-- Claim C4: when the first surviving data row's key cell is not
missing, the key column after the Row Reconciler's forward fill
contains no missing marker, and every row's key cell equals the
nearest preceding non-missing original value (expressed as `fillVal`
over the prefix of the pre-fill column). -/
theorem claim4_thm (kIdx : Nat) (g : Grid)
    (hlen : ∀ r ∈ preFfillRows kIdx g, kIdx < r.length)
    (hfst : ((preFfillRows kIdx g).headD []).getD kIdx Val.na ≠ Val.na) :
    Val.na ∉ (reconcileRows kIdx g).map (fun r => r.getD kIdx Val.na) ∧
    ∀ i, i < (reconcileRows kIdx g).length →
      ((reconcileRows kIdx g).getD i []).getD kIdx Val.na =
        fillVal Val.na (((preFfillRows kIdx g).take (i + 1)).map
          (fun r => r.getD kIdx Val.na)) := by
  have hlen2 : (reconcileRows kIdx g).length = (preFfillRows kIdx g).length :=
    ffillAux_length kIdx (preFfillRows kIdx g) Val.na
  constructor
  · intro hmem
    obtain ⟨r, hr, hrna⟩ := List.mem_map.mp hmem
    exact ffillAux_key_ne_na kIdx (preFfillRows kIdx g) Val.na hlen (Or.inr hfst) r hr hrna
  · intro i hi
    exact ffillAux_getD kIdx (preFfillRows kIdx g) Val.na hlen i (hlen2 ▸ hi)

/-- A grid exercising the forward fill: the second row's key cell is
blank and is filled from the first row. -/
def gridFf : Grid := [["A", "x"], ["", "y"]]

/-- Claim C4 witness: on `gridFf` with key column 0, the reconciled key
column has no missing marker and row 1 carries the filled value. -/
theorem claim4_wit :
    Val.na ∉ (reconcileRows 0 gridFf).map (fun r => r.getD 0 Val.na) ∧
    ((reconcileRows 0 gridFf).getD 1 []).getD 0 Val.na =
      fillVal Val.na (((preFfillRows 0 gridFf).take 2).map
        (fun r => r.getD 0 Val.na)) := by
  have h := claim4_thm 0 gridFf (by decide) (by decide)
  exact ⟨h.1, h.2 1 (by decide)⟩

end Sparcs

namespace Sparcs

/-! ### Claim C7: absent percentage column -/

/-- Rows produced by the forward fill have the length of some input
row (`List.set` preserves length). -/
theorem ffillAux_exists_len (kIdx : Nat) :
    ∀ (rows : List (List Val)) (c : Val) (r' : List Val), r' ∈ ffillAux kIdx c rows →
      ∃ r0 ∈ rows, r'.length = r0.length := by
  intro rows
  induction rows with
  | nil => intro c r' h; simp [ffillAux] at h
  | cons r rs ih =>
    intro c r' h
    by_cases hv : r.getD kIdx Val.na = Val.na
    · have hstep : ffillAux kIdx c (r :: rs) = r.set kIdx c :: ffillAux kIdx c rs := by
        simp only [ffillAux]
        rw [if_pos hv]
      rw [hstep] at h
      rcases List.mem_cons.mp h with rfl | hmem
      · exact ⟨r, List.mem_cons_self r rs, by simp⟩
      · obtain ⟨r0, h0, hl⟩ := ih c r' hmem
        exact ⟨r0, List.mem_cons_of_mem r h0, hl⟩
    · have hstep : ffillAux kIdx c (r :: rs) =
          r :: ffillAux kIdx (r.getD kIdx Val.na) rs := by
        simp only [ffillAux]
        rw [if_neg hv]
      rw [hstep] at h
      rcases List.mem_cons.mp h with rfl | hmem
      · exact ⟨_, List.mem_cons_self _ _, rfl⟩
      · obtain ⟨r0, h0, hl⟩ := ih (r.getD kIdx Val.na) r' hmem
        exact ⟨r0, List.mem_cons_of_mem r h0, hl⟩

/-- Every reconciled row has the length of some raw row of the grid. -/
theorem reconcile_mem_len (kIdx : Nat) (g : Grid) :
    ∀ r' ∈ reconcileRows kIdx g, ∃ r0 ∈ g, r'.length = r0.length := by
  intro r' h
  obtain ⟨rm, hrm, hlm⟩ := ffillAux_exists_len kIdx (preFfillRows kIdx g) Val.na r' h
  simp only [preFfillRows] at hrm
  obtain ⟨rf, hrf, rfl⟩ := List.mem_map.mp hrm
  simp only [filteredRows] at hrf
  have h1 := (List.mem_filter.mp hrf).1
  have h2 := (List.mem_filter.mp h1).1
  have hg : rf ∈ g := (List.mem_filter.mp h2).1
  exact ⟨rf, hg, by simpa using hlm⟩

/-- The first occurrence of a freshly appended column label sits right
after the original labels. -/
theorem indexOf_append_notmem :
    ∀ (l : List String) (c : String) (l' : List String), c ∉ l →
      (l ++ c :: l').indexOf c = l.length
  | [], c, l', _ => by simp
  | a :: as, c, l', h => by
    have hne : (a == c) = false := by
      have hne' : a ≠ c := by
        intro he
        exact h (by simp [he])
      simpa using hne'
    simp [List.cons_append, List.indexOf_cons, hne,
      indexOf_append_notmem as c l' (fun hm => h (List.mem_cons_of_mem a hm))]

/-- Claim C7: when the configured percentage column is entirely absent
from a table's canonical header, the processed table carries that
column with the missing marker in every row, and any aggregation
containing the table has the column in its union schema. -/
theorem claim7_thm (p y : String) (hd : List String) (tl : List (List String)) (t : NTable)
    (hrect : ∀ r ∈ (hd :: tl : Grid), r.length = (stageCols (hd :: tl)).length)
    (hk : keyCol ∈ stageCols (hd :: tl))
    (hk1 : ¬ 2 ≤ (stageCols (hd :: tl)).count keyCol)
    (hp : pctCol ∉ stageCols (hd :: tl))
    (hpfi : "PFI" ∉ stageCols (hd :: tl))
    (hay : "AUDIT_YEAR" ∉ stageCols (hd :: tl))
    (ht : processTable p y (hd :: tl) = some t) :
    pctCol ∈ t.cols ∧
    t.rows.map (fun r => r.getD (t.cols.indexOf pctCol) Val.na) =
      List.replicate t.rows.length Val.na ∧
    ∀ ts, t ∈ ts → pctCol ∈ unionCols ts := by
  have hPFIp : ("PFI" : String) ≠ pctCol := by decide
  have hAYp : ("AUDIT_YEAR" : String) ≠ pctCol := by decide
  have hAYP : ("AUDIT_YEAR" : String) ≠ "PFI" := by decide
  have hpt : processTable p y (hd :: tl) =
      some (setColAll (setColAll (setColAll
        ⟨stageCols (hd :: tl),
          reconcileRows ((stageCols (hd :: tl)).indexOf keyCol) (hd :: tl)⟩
        pctCol Val.na) "PFI" (Val.str p)) "AUDIT_YEAR" (Val.str y)) := by
    simp only [processTable]
    rw [if_pos hk, if_neg hk1, if_neg hp]
  have h1 : setColAll
      ⟨stageCols (hd :: tl),
        reconcileRows ((stageCols (hd :: tl)).indexOf keyCol) (hd :: tl)⟩
      pctCol Val.na =
      ⟨stageCols (hd :: tl) ++ [pctCol],
        (reconcileRows ((stageCols (hd :: tl)).indexOf keyCol) (hd :: tl)).map
          (fun r => r ++ [Val.na])⟩ := by
    simp [setColAll, hp]
  have hm2 : ("PFI" : String) ∉ stageCols (hd :: tl) ++ [pctCol] := by
    simp [List.mem_append, hpfi, hPFIp]
  have h2 : setColAll
      ⟨stageCols (hd :: tl) ++ [pctCol],
        (reconcileRows ((stageCols (hd :: tl)).indexOf keyCol) (hd :: tl)).map
          (fun r => r ++ [Val.na])⟩ "PFI" (Val.str p) =
      ⟨(stageCols (hd :: tl) ++ [pctCol]) ++ ["PFI"],
        ((reconcileRows ((stageCols (hd :: tl)).indexOf keyCol) (hd :: tl)).map
          (fun r => r ++ [Val.na])).map (fun r => r ++ [Val.str p])⟩ := by
    simp [setColAll, hm2]
  have hm3 : ("AUDIT_YEAR" : String) ∉ (stageCols (hd :: tl) ++ [pctCol]) ++ ["PFI"] := by
    simp [List.mem_append, hay, hAYp, hAYP]
  have h3 : setColAll
      ⟨(stageCols (hd :: tl) ++ [pctCol]) ++ ["PFI"],
        ((reconcileRows ((stageCols (hd :: tl)).indexOf keyCol) (hd :: tl)).map
          (fun r => r ++ [Val.na])).map (fun r => r ++ [Val.str p])⟩
        "AUDIT_YEAR" (Val.str y) =
      ⟨((stageCols (hd :: tl) ++ [pctCol]) ++ ["PFI"]) ++ ["AUDIT_YEAR"],
        (((reconcileRows ((stageCols (hd :: tl)).indexOf keyCol) (hd :: tl)).map
          (fun r => r ++ [Val.na])).map (fun r => r ++ [Val.str p])).map
            (fun r => r ++ [Val.str y])⟩ := by
    simp [setColAll, hm3, hay, hAYp, hAYP]
  rw [hpt, h1, h2, h3] at ht
  have hteq : t =
      ⟨((stageCols (hd :: tl) ++ [pctCol]) ++ ["PFI"]) ++ ["AUDIT_YEAR"],
        (((reconcileRows ((stageCols (hd :: tl)).indexOf keyCol) (hd :: tl)).map
          (fun r => r ++ [Val.na])).map (fun r => r ++ [Val.str p])).map
            (fun r => r ++ [Val.str y])⟩ := (Option.some.inj ht).symm
  subst hteq
  have hidx : ((((stageCols (hd :: tl) ++ [pctCol]) ++ ["PFI"]) ++ ["AUDIT_YEAR"] :
      List String)).indexOf pctCol = (stageCols (hd :: tl)).length := by
    rw [List.append_assoc, List.append_assoc]
    simpa using indexOf_append_notmem (stageCols (hd :: tl)) pctCol _ hp
  have hmemc : pctCol ∈ ((stageCols (hd :: tl) ++ [pctCol]) ++ ["PFI"]) ++ ["AUDIT_YEAR"] := by
    simp
  refine ⟨hmemc, ?_, fun ts hts => mem_unionCols hts hmemc⟩
  simp only [NTable.mk.injEq] at *
  simp only [hidx]
  rw [List.eq_replicate_iff]
  constructor
  · simp
  · intro b hb
    simp only [List.map_map, List.mem_map, Function.comp] at hb
    obtain ⟨r, hr, rfl⟩ := hb
    obtain ⟨r0, hr0, hrl⟩ := reconcile_mem_len ((stageCols (hd :: tl)).indexOf keyCol)
      (hd :: tl) r hr
    have hrlen : r.length = (stageCols (hd :: tl)).length := by
      rw [hrl]
      exact hrect r0 hr0
    rw [List.append_assoc, List.append_assoc]
    simp only [List.singleton_append, List.cons_append, List.nil_append]
    rw [← hrlen]
    exact getD_append_cons r Val.na [Val.str p, Val.str y]

/-- A grid with no percentage column at all. -/
def gridC7 : Grid := [["File\nType", "Data"], ["A", "d1"]]

/-- The table `process_pdf` produces for `gridC7`. -/
def tblC7 : NTable :=
  ⟨["FILE_TYPE", "DATA", "PCT_OF_PREVYRAVG_SUBMTD_", "PFI", "AUDIT_YEAR"],
    [[Val.str "A", Val.str "d1", Val.na, Val.str "PFI9", Val.str "2021"]]⟩

/-- Claim C7 witness: the pct-less grid `gridC7` yields a table whose
percentage column is present and all-missing, and the column enters
the union schema of an aggregation containing the table. -/
theorem claim7_wit :
    pctCol ∈ tblC7.cols ∧
    tblC7.rows.map (fun r => r.getD (tblC7.cols.indexOf pctCol) Val.na) =
      List.replicate tblC7.rows.length Val.na ∧
    pctCol ∈ unionCols [⟨["FILE_TYPE"], []⟩, tblC7] := by
  have h := claim7_thm "PFI9" "2021" ["File\nType", "Data"] [["A", "d1"]] tblC7
    (by decide) (by decide) (by decide) (by decide) (by decide) (by decide) (by decide)
  exact ⟨h.1, h.2.1, h.2.2 [⟨["FILE_TYPE"], []⟩, tblC7] (by simp)⟩

end Sparcs
